import Mathlib

/-!
Shallow embedding of the soup HTML query layer (src/soup.go) and proofs
about its search, navigation, attribute-matching and text-extraction
functions.  The document tree of golang.org/x/net/html is modelled as a
mutual inductive: a node carries its type, its data string (tag name for
elements, literal text for text nodes), its attribute list and its ordered
child list.  Go runtime panics (out-of-range slice indexing) are made
explicit through the result type GoRes.
-/

namespace Soup

/-- Node types of the html tree, mirroring html.NodeType of
golang.org/x/net/html (ErrorNode and RawNode are never produced by the
queries modelled here and are omitted). -/
inductive NodeType where
  | element
  | text
  | comment
  | doctype
  | document
deriving DecidableEq

/-- One html attribute, mirroring html.Attribute (the Namespace field is
never read by soup and is omitted). -/
structure Attribute where
  key : String
  val : String
deriving DecidableEq

mutual
/-- A document tree node: type, data string, attributes and ordered
children, mirroring the html.Node fields soup reads (Type, Data, Attr,
FirstChild/NextSibling chain). -/
inductive Node : Type where
  | mk (type : NodeType) (data : String) (attr : List Attribute) (children : NodeList)

/-- The ordered list of children of a node (the FirstChild/NextSibling
chain of html.Node). -/
inductive NodeList : Type where
  | nil
  | cons (head : Node) (tail : NodeList)
end

/-- Type of a node. -/
def Node.type : Node → NodeType
  | .mk t _ _ _ => t

/-- Data string of a node (tag name for elements, text for text nodes). -/
def Node.data : Node → String
  | .mk _ d _ _ => d

/-- Attribute list of a node. -/
def Node.attr : Node → List Attribute
  | .mk _ _ a _ => a

/-- Children of a node. -/
def Node.children : Node → NodeList
  | .mk _ _ _ c => c

/-- Plain list of the nodes of a NodeList. -/
def NodeList.toList : NodeList → List Node
  | .nil => []
  | .cons h t => h :: t.toList

/-- Result of running a piece of Go code that may panic at runtime:
either the ordinary value, or a runtime panic (for soup: out-of-range
indexing of the variadic args slice). -/
inductive GoRes (α : Type) where
  | ok (val : α)
  | panicked

/-- The Root struct of soup: a pointer to a node, the node data string,
and an error slot.  The error is modelled by its message string. -/
structure Root where
  pointer : Option Node
  nodeValue : String
  error : Option String

/-- wrapNode from soup.go: wrap a node, NodeValue set from its Data. -/
def wrapNode (n : Node) : Root :=
  { pointer := some n, nodeValue := n.data, error := none }

/-- wrapErr / wrapErrf from soup.go: an error-bearing Root. -/
def wrapErr (msg : String) : Root :=
  { pointer := none, nodeValue := "", error := some msg }

/-- Helper for fields: walk the characters, gathering the current field
in acc (reversed); a whitespace character closes the current field, and
empty fields are dropped. -/
def fieldsAux : List Char → List Char → List String
  | [], acc => if acc.isEmpty then [] else [String.mk acc.reverse]
  | c :: rest, acc =>
    if c.isWhitespace then
      (if acc.isEmpty then [] else [String.mk acc.reverse]) ++ fieldsAux rest []
    else fieldsAux rest (c :: acc)

/-- Model of strings.Fields of the Go standard library: the maximal runs
of non-whitespace characters of the string, in order. -/
def fields (s : String) : List String :=
  fieldsAux s.data []

/-- attributeAndValueEquals from soup.go: the attribute has exactly the
given key and value. -/
def attributeAndValueEquals (attr : Attribute) (key val : String) : Bool :=
  attr.key == key && attr.val == val

/-- attributeContainsValue from soup.go: the attribute has the given key
and the given value occurs among the whitespace-separated tokens of the
attribute value. -/
def attributeContainsValue (attr : Attribute) (key val : String) : Bool :=
  if attr.key != key then false
  else (fields attr.val).any (fun f => f == val)

/-- getKeyValue from soup.go: build a Go map from the attribute list by
inserting each pair in order (so a later duplicate key overwrites an
earlier one).  The Go map is modelled by its lookup function. -/
def getKeyValue (attrs : List Attribute) : String → Option String :=
  attrs.foldl (fun m a => fun k => if k == a.key then some a.val else m k)
    (fun _ => none)

/-- Attrs from soup.go: nil for non-element nodes, otherwise the
key-to-value map of the attribute list. -/
def Attrs (n : Node) : Option (String → Option String) :=
  if n.type != NodeType.element then none
  else some (getKeyValue n.attr)

/-- Loop body of Text from soup.go: concatenate the Data of the direct
children that are text nodes, in order. -/
def textLoop : NodeList → String
  | .nil => ""
  | .cons k rest => (if k.type == NodeType.text then k.data else "") ++ textLoop rest

/-- Text from soup.go: the Data of the node itself when it is a text
node, otherwise the concatenation of the Data of its direct text-node
children. -/
def Text (n : Node) : String :=
  if n.type == NodeType.text then n.data else textLoop n.children

mutual
/-- fullText from soup.go: write the Data of a text node, otherwise
recurse into the children. -/
def fullText : Node → String
  | .mk ty d _ cs => if ty == NodeType.text then d else fullTextList cs

/-- Child loop of fullText from soup.go. -/
def fullTextList : NodeList → String
  | .nil => ""
  | .cons c cs => fullText c ++ fullTextList cs
end

/-- FullText from soup.go. -/
def FullText (n : Node) : String := fullText n

/-- Inner attribute loop of findOnce from soup.go: scan the attributes in
order; per iteration the loop first reads args[1] and args[2] (a Go
runtime panic when args has fewer than three entries) and then tests the
strict or loose matcher, returning true at the first satisfying
attribute. -/
def findAttrOnce (attrs : List Attribute) (args : List String) (strict : Bool) :
    GoRes Bool :=
  match attrs with
  | [] => .ok false
  | attr :: rest =>
    match args.get? 1, args.get? 2 with
    | some key, some val =>
      if (strict && attributeAndValueEquals attr key val) ||
          (!strict && attributeContainsValue attr key val) then .ok true
      else findAttrOnce rest args strict
    | _, _ => .panicked

mutual
/-- findOnce from soup.go: when uni is set, test this node (element type,
Data equal to args[0], and — when two or three args are given — some
attribute satisfying the matcher; reading args[0] when args is empty is a
Go runtime panic), then recurse into the children with uni set. -/
def findOnce : Node → List String → Bool → Bool → GoRes (Option Node)
  | n@(.mk ty d attrs cs), args, uni, strict =>
    if uni && ty == NodeType.element then
      match args.get? 0 with
      | none => .panicked
      | some tag =>
        if d == tag then
          if 1 < args.length ∧ args.length < 4 then
            match findAttrOnce attrs args strict with
            | .panicked => .panicked
            | .ok true => .ok (some n)
            | .ok false => findOnceList cs args strict
          else if args.length = 1 then .ok (some n)
          else findOnceList cs args strict
        else findOnceList cs args strict
    else findOnceList cs args strict

/-- Child loop of findOnce from soup.go: try each child with uni set,
returning the first hit. -/
def findOnceList : NodeList → List String → Bool → GoRes (Option Node)
  | .nil, _, _ => .ok none
  | .cons c cs, args, strict =>
    match findOnce c args true strict with
    | .panicked => .panicked
    | .ok (some p) => .ok (some p)
    | .ok none => findOnceList cs args strict
end

/-- Inner attribute loop of findAllofem from soup.go: unlike the findOnce
loop it does not stop at the first satisfying attribute, so the node is
appended once per satisfying attribute.  Reading args[1] and args[2] with
fewer than three args is a Go runtime panic. -/
def findAllAttr (n : Node) (attrs : List Attribute) (args : List String)
    (strict : Bool) : GoRes (List Node) :=
  match attrs with
  | [] => .ok []
  | attr :: rest =>
    match args.get? 1, args.get? 2 with
    | some key, some val =>
      match findAllAttr n rest args strict with
      | .panicked => .panicked
      | .ok l =>
        if (strict && attributeAndValueEquals attr key val) ||
            (!strict && attributeContainsValue attr key val) then .ok (n :: l)
        else .ok l
    | _, _ => .panicked

mutual
/-- Body of the recursive closure of findAllofem from soup.go: when uni
is set, compare the Data of this node with args[0] (with no check that
the node is an element; reading args[0] when args is empty is a Go
runtime panic) and collect the hits of this node, then recurse into the
children with uni set, appending their hits in order. -/
def findAllAux : Node → List String → Bool → Bool → GoRes (List Node)
  | n@(.mk _ d attrs cs), args, uni, strict =>
    let selfRes : GoRes (List Node) :=
      if uni then
        match args.get? 0 with
        | none => .panicked
        | some tag =>
          if d == tag then
            if 1 < args.length ∧ args.length < 4 then findAllAttr n attrs args strict
            else if args.length = 1 then .ok [n]
            else .ok []
          else .ok []
      else .ok []
    match selfRes with
    | .panicked => .panicked
    | .ok l =>
      match findAllAuxList cs args strict with
      | .panicked => .panicked
      | .ok l2 => .ok (l ++ l2)

/-- Child loop of the findAllofem closure from soup.go. -/
def findAllAuxList : NodeList → List String → Bool → GoRes (List Node)
  | .nil, _, _ => .ok []
  | .cons c cs, args, strict =>
    match findAllAux c args true strict with
    | .panicked => .panicked
    | .ok l =>
      match findAllAuxList cs args strict with
      | .panicked => .panicked
      | .ok l2 => .ok (l ++ l2)
end

/-- findAllofem from soup.go: run the closure on the start node with uni
initially unset. -/
def findAllofem (n : Node) (args : List String) (strict : Bool) :
    GoRes (List Node) :=
  findAllAux n args false strict

/-- The not-found error message of Find and FindStrict from soup.go:
element args[0] with attributes strings.Join(args[1:]) not found. -/
def notFoundMsg (args : List String) : String :=
  "element `" ++ args.headD "" ++ "` with attributes `" ++
    String.intercalate " " args.tail ++ "` not found"

/-- Find from soup.go: zero args yield the not-enough-arguments error,
otherwise run findOnce (loose matching) and wrap the hit, or produce the
not-found error. -/
def Find (r : Node) (args : List String) : GoRes Root :=
  if args.length = 0 then .ok (wrapErr "not enough arguments")
  else
    match findOnce r args false false with
    | .panicked => .panicked
    | .ok none => .ok (wrapErr (notFoundMsg args))
    | .ok (some t) => .ok (wrapNode t)

/-- FindStrict from soup.go: as Find, with strict attribute matching. -/
def FindStrict (r : Node) (args : List String) : GoRes Root :=
  if args.length = 0 then .ok (wrapErr "not enough arguments")
  else
    match findOnce r args false true with
    | .panicked => .panicked
    | .ok none => .ok (wrapErr (notFoundMsg args))
    | .ok (some t) => .ok (wrapNode t)

/-- FindAll from soup.go: run findAllofem (loose matching) and wrap every
hit; the result carries no error slot, zero hits give the empty list. -/
def FindAll (r : Node) (args : List String) : GoRes (List Root) :=
  match findAllofem r args false with
  | .panicked => .panicked
  | .ok l => .ok (l.map wrapNode)

/-- FindAllStrict from soup.go: as FindAll, with strict matching. -/
def FindAllStrict (r : Node) (args : List String) : GoRes (List Root) :=
  match findAllofem r args true with
  | .panicked => .panicked
  | .ok l => .ok (l.map wrapNode)

/-- FindNextElementSibling from soup.go, embedded on the list of
following siblings of the receiver (nearest first, the NextSibling
chain): return the first element node, or the error. -/
def FindNextElementSibling : List Node → Root
  | [] => wrapErr "no next element sibling found"
  | k :: rest =>
    if k.type == NodeType.element then wrapNode k else FindNextElementSibling rest

/-- FindPrevElementSibling from soup.go, embedded on the list of
preceding siblings of the receiver (nearest first, the PrevSibling
chain): return the first element node, or the error. -/
def FindPrevElementSibling : List Node → Root
  | [] => wrapErr "no previous element sibling found"
  | k :: rest =>
    if k.type == NodeType.element then wrapNode k else FindPrevElementSibling rest

mutual
/-- All nodes of a subtree in depth-first pre-order, the root included. -/
def subnodes : Node → List Node
  | n@(.mk _ _ _ cs) => n :: subnodesList cs

/-- All nodes of the subtrees of a child list, in depth-first pre-order. -/
def subnodesList : NodeList → List Node
  | .nil => []
  | .cons c cs => subnodes c ++ subnodesList cs
end

/-- Concatenation of a list of strings in order (used to state the text
extraction claims). -/
def concatStrings : List String → String
  | [] => ""
  | s :: rest => s ++ concatStrings rest

mutual
/-- Modelled from the spec: the Data pieces of the text-node descendants
of a subtree, any depth, in document (pre-order depth-first) order; a
text node contributes its own Data. -/
def textPieces : Node → List String
  | .mk ty d _ cs => if ty == NodeType.text then [d] else textPiecesList cs

/-- Modelled from the spec: text pieces of a child list, in order. -/
def textPiecesList : NodeList → List String
  | .nil => []
  | .cons c cs => textPieces c ++ textPiecesList cs
end

/-- Modelled from the spec: the Data pieces of the direct text-node
children of a child list, in order (descendants of non-text children
contribute nothing). -/
def shallowPieces : NodeList → List String
  | .nil => []
  | .cons c cs =>
    (if c.type == NodeType.text then [c.data] else []) ++ shallowPieces cs

/-- Sample text node whose Data is the string p, as a tag name would be. -/
def textPNode : Node := .mk .text "p" [] .nil

/-- Sample tree: a div element whose only child is the text node with
Data p. -/
def divTextP : Node := .mk .element "div" [] (.cons textPNode .nil)

/-- Sample element with tag a and no attributes or children. -/
def elemA : Node := .mk .element "a" [] .nil

/-- Sample tree: an r element whose only child is the a element. -/
def treeRA : Node := .mk .element "r" [] (.cons elemA .nil)

/-- Sample element with tag p and one class attribute. -/
def pClassX : Node := .mk .element "p" [⟨"class", "x"⟩] .nil

/-- Sample childless div element. -/
def divEmpty : Node := .mk .element "div" [] .nil

/-- Sample tree: a div element whose only child is the p element with a
class attribute. -/
def divPClassX : Node := .mk .element "div" [] (.cons pClassX .nil)

/-- Sample element with tag a carrying the same class attribute twice. -/
def aDupClass : Node := .mk .element "a" [⟨"class", "x"⟩, ⟨"class", "x"⟩] .nil

/-- Sample tree: a div element whose only child is the element with the
duplicated class attribute. -/
def divADup : Node := .mk .element "div" [] (.cons aDupClass .nil)

/-- Sample tree for the b element of the text-extraction example. -/
def bWorld : Node := .mk .element "b" [] (.cons (.mk .text "world" [] .nil) .nil)

/-- Sample tree for the p element of the text-extraction example. -/
def pHello : Node := .mk .element "p" []
  (.cons (.mk .text "Hello " [] .nil)
    (.cons bWorld (.cons (.mk .text "!" [] .nil) .nil)))

/-- Mutual induction principle for Node and NodeList. -/
theorem node_mutual_ind {P : Node → Prop} {Q : NodeList → Prop}
    (h : ∀ ty d attrs cs, Q cs → P (.mk ty d attrs cs))
    (h0 : Q .nil)
    (h1 : ∀ c cs, P c → Q cs → Q (.cons c cs)) :
    (∀ n, P n) ∧ (∀ cs, Q cs) :=
  ⟨fun n => @Node.rec P Q h h0 h1 n, fun cs => @NodeList.rec P Q h h0 h1 cs⟩

/-- Concatenation distributes over list append. -/
theorem concatStrings_append (l1 l2 : List String) :
    concatStrings (l1 ++ l2) = concatStrings l1 ++ concatStrings l2 := by
  induction l1 with
  | nil => simp [concatStrings]
  | cons s rest ih => simp [concatStrings, ih, String.append_assoc]

/-- The child loop of Text concatenates exactly the Data of the direct
text-node children, in order. -/
theorem textLoop_eq : ∀ cs : NodeList, textLoop cs = concatStrings (shallowPieces cs)
  | .nil => rfl
  | .cons c cs => by
    rw [textLoop, shallowPieces, concatStrings_append, textLoop_eq cs]
    cases h : c.type == NodeType.text <;> simp [concatStrings]

mutual
/-- fullText concatenates exactly the text pieces of the subtree. -/
theorem fullText_eq : ∀ n : Node, fullText n = concatStrings (textPieces n)
  | .mk ty d attrs cs => by
    rw [fullText, textPieces]
    cases h : ty == NodeType.text <;> simp [concatStrings, fullTextList_eq cs]

/-- fullTextList concatenates exactly the text pieces of a child list. -/
theorem fullTextList_eq : ∀ cs : NodeList,
    fullTextList cs = concatStrings (textPiecesList cs)
  | .nil => rfl
  | .cons c cs => by
    rw [fullTextList, textPiecesList, concatStrings_append, fullText_eq c,
      fullTextList_eq cs]
end

/-- Every node returned by findOnce or its child loop is an element. -/
theorem findOnce_elem_pair :
    (∀ n : Node, ∀ args uni strict t,
      findOnce n args uni strict = .ok (some t) → t.type = NodeType.element) ∧
    (∀ cs : NodeList, ∀ args strict t,
      findOnceList cs args strict = .ok (some t) → t.type = NodeType.element) := by
  refine node_mutual_ind ?_ ?_ ?_
  · intro ty d attrs cs ih args uni strict t h
    rw [findOnce] at h
    split at h
    case isTrue huni =>
      split at h
      · exact absurd h (by simp)
      case h_2 tag =>
        split at h
        · split at h
          · split at h
            · exact absurd h (by simp)
            · simp only [GoRes.ok.injEq, Option.some.injEq] at h
              subst h
              simp only [Bool.and_eq_true, beq_iff_eq] at huni
              simpa [Node.type] using huni.2
            · exact ih args strict t h
          · split at h
            · simp only [GoRes.ok.injEq, Option.some.injEq] at h
              subst h
              simp only [Bool.and_eq_true, beq_iff_eq] at huni
              simpa [Node.type] using huni.2
            · exact ih args strict t h
        · exact ih args strict t h
    case isFalse => exact ih args strict t h
  · intro args strict t h
    rw [findOnceList] at h
    exact absurd h (by simp)
  · intro c cs ihc ihcs args strict t h
    rw [findOnceList] at h
    split at h
    · exact absurd h (by simp)
    case h_2 p hp =>
      simp only [GoRes.ok.injEq, Option.some.injEq] at h
      subst h
      exact ihc args true strict p hp
    case h_3 => exact ihcs args strict t h

/-- Every node returned by findOnce with uni set, or by its child loop,
lies in the corresponding subtree or child list. -/
theorem findOnce_mem_pair :
    (∀ n : Node, ∀ args strict t,
      findOnce n args true strict = .ok (some t) → t ∈ subnodes n) ∧
    (∀ cs : NodeList, ∀ args strict t,
      findOnceList cs args strict = .ok (some t) → t ∈ subnodesList cs) := by
  refine node_mutual_ind ?_ ?_ ?_
  · intro ty d attrs cs ih args strict t h
    rw [findOnce] at h
    have hsub : t ∈ subnodesList cs → t ∈ subnodes (.mk ty d attrs cs) := by
      intro hm
      rw [subnodes]
      exact List.mem_cons_of_mem _ hm
    split at h
    case isTrue huni =>
      split at h
      · exact absurd h (by simp)
      case h_2 tag =>
        split at h
        · split at h
          · split at h
            · exact absurd h (by simp)
            · simp only [GoRes.ok.injEq, Option.some.injEq] at h
              subst h
              rw [subnodes]
              exact List.mem_cons_self _ _
            · exact hsub (ih args strict t h)
          · split at h
            · simp only [GoRes.ok.injEq, Option.some.injEq] at h
              subst h
              rw [subnodes]
              exact List.mem_cons_self _ _
            · exact hsub (ih args strict t h)
        · exact hsub (ih args strict t h)
    case isFalse => exact hsub (ih args strict t h)
  · intro args strict t h
    rw [findOnceList] at h
    exact absurd h (by simp)
  · intro c cs ihc ihcs args strict t h
    rw [findOnceList] at h
    rw [subnodesList]
    split at h
    · exact absurd h (by simp)
    case h_2 p hp =>
      simp only [GoRes.ok.injEq, Option.some.injEq] at h
      subst h
      exact List.mem_append_left _ (ihc args strict p hp)
    case h_3 => exact List.mem_append_right _ (ihcs args strict t h)

/-- When no element of the subtree carries the tag as Data, a one-argument
findOnce finds nothing. -/
theorem findOnce_notFound_pair :
    (∀ n : Node, ∀ tag uni strict,
      (∀ m ∈ subnodes n, ¬(m.type = NodeType.element ∧ m.data = tag)) →
      findOnce n [tag] uni strict = .ok none) ∧
    (∀ cs : NodeList, ∀ tag strict,
      (∀ m ∈ subnodesList cs, ¬(m.type = NodeType.element ∧ m.data = tag)) →
      findOnceList cs [tag] strict = .ok none) := by
  refine node_mutual_ind ?_ ?_ ?_
  · intro ty d attrs cs ih tag uni strict hall
    have hcs : findOnceList cs [tag] strict = .ok none := by
      apply ih
      intro m hm
      refine hall m ?_
      rw [subnodes]
      exact List.mem_cons_of_mem _ hm
    rw [findOnce]
    split
    case isTrue huni =>
      simp only [Bool.and_eq_true, beq_iff_eq] at huni
      have hself := hall (.mk ty d attrs cs)
        (by rw [subnodes]; exact List.mem_cons_self _ _)
      simp only [Node.type, Node.data, not_and] at hself
      have hd : (d == tag) = false := by
        simp only [beq_eq_false_iff_ne, ne_eq]
        exact hself huni.2
      simp [hd, hcs]
    case isFalse => exact hcs
  · intro tag strict hall
    rfl
  · intro c cs ihc ihcs tag strict hall
    have h1 : findOnce c [tag] true strict = .ok none := by
      apply ihc
      intro m hm
      refine hall m ?_
      rw [subnodesList]
      exact List.mem_append_left _ hm
    have h2 : findOnceList cs [tag] strict = .ok none := by
      apply ihcs
      intro m hm
      refine hall m ?_
      rw [subnodesList]
      exact List.mem_append_right _ hm
    rw [findOnceList, h1, h2]

/-- When no node of the subtree at all carries the tag as Data, a
one-argument findAllofem pass collects nothing. -/
theorem findAllAux_empty_pair :
    (∀ n : Node, ∀ tag uni strict,
      (∀ m ∈ subnodes n, m.data ≠ tag) →
      findAllAux n [tag] uni strict = .ok []) ∧
    (∀ cs : NodeList, ∀ tag strict,
      (∀ m ∈ subnodesList cs, m.data ≠ tag) →
      findAllAuxList cs [tag] strict = .ok []) := by
  refine node_mutual_ind ?_ ?_ ?_
  · intro ty d attrs cs ih tag uni strict hall
    have hcs : findAllAuxList cs [tag] strict = .ok [] := by
      apply ih
      intro m hm
      refine hall m ?_
      rw [subnodes]
      exact List.mem_cons_of_mem _ hm
    have hself := hall (.mk ty d attrs cs)
      (by rw [subnodes]; exact List.mem_cons_self _ _)
    simp only [Node.data, ne_eq] at hself
    have hd : (d == tag) = false := by
      simp only [beq_eq_false_iff_ne, ne_eq]
      exact hself
    rw [findAllAux]
    cases uni <;> simp [hd, hcs]
  · intro tag strict hall
    rfl
  · intro c cs ihc ihcs tag strict hall
    have h1 : findAllAux c [tag] true strict = .ok [] := by
      apply ihc
      intro m hm
      refine hall m ?_
      rw [subnodesList]
      exact List.mem_append_left _ hm
    have h2 : findAllAuxList cs [tag] strict = .ok [] := by
      apply ihcs
      intro m hm
      refine hall m ?_
      rw [subnodesList]
      exact List.mem_append_right _ hm
    rw [findAllAuxList, h1, h2]
    rfl

/-- With three arguments the attribute loop of findAllofem appends the
node once per attribute satisfying the active matcher. -/
theorem findAllAttr_replicate (n : Node) (attrs : List Attribute)
    (tag key val : String) (strict : Bool) :
    findAllAttr n attrs [tag, key, val] strict =
      .ok (List.replicate
        (attrs.countP (fun a => (strict && attributeAndValueEquals a key val) ||
          (!strict && attributeContainsValue a key val))) n) := by
  induction attrs with
  | nil => rfl
  | cons a rest ih =>
    rw [findAllAttr]
    simp only [List.get?, ih, List.countP_cons]
    cases h : (strict && attributeAndValueEquals a key val) ||
        (!strict && attributeContainsValue a key val) <;>
      simp [h, List.replicate_succ]

/-- Folding the map-insert step over attributes none of which carry the
key leaves the lookup at that key unchanged. -/
theorem getKeyValue_skip (attrs : List Attribute) (m : String → Option String)
    (k : String) (h : ∀ a ∈ attrs, a.key ≠ k) :
    attrs.foldl (fun m a => fun k' => if k' == a.key then some a.val else m k') m k
      = m k := by
  induction attrs generalizing m with
  | nil => rfl
  | cons a rest ih =>
    rw [List.foldl_cons, ih _ (fun b hb => h b (List.mem_cons_of_mem _ hb))]
    have hk : (k == a.key) = false := by
      simp only [beq_eq_false_iff_ne, ne_eq]
      exact fun he => h a (List.mem_cons_self _ _) he.symm
    simp [hk]

/-- On a duplicate key the getKeyValue map keeps the value of the last
occurrence. -/
theorem getKeyValue_lastWins (pre post : List Attribute) (k v : String)
    (h : ∀ a ∈ post, a.key ≠ k) :
    getKeyValue (pre ++ ⟨k, v⟩ :: post) k = some v := by
  rw [getKeyValue, List.foldl_append, List.foldl_cons]
  rw [getKeyValue_skip post _ k h]
  simp

/-- A key absent from the attribute list is absent from the map. -/
theorem getKeyValue_absent (attrs : List Attribute) (k : String)
    (h : ∀ a ∈ attrs, a.key ≠ k) : getKeyValue attrs k = none := by
  rw [getKeyValue, getKeyValue_skip attrs _ k h]

/-- FindNextElementSibling skips a run of non-element siblings and stops
at the first element. -/
theorem nextElem_skip (mid : List Node) (B : Node) (rest : List Node)
    (hmid : ∀ m ∈ mid, m.type ≠ NodeType.element)
    (hB : B.type = NodeType.element) :
    FindNextElementSibling (mid ++ B :: rest) = wrapNode B := by
  induction mid with
  | nil => simp [FindNextElementSibling, hB]
  | cons m ms ih =>
    rw [List.cons_append, FindNextElementSibling]
    have hm : (m.type == NodeType.element) = false := by
      simp only [beq_eq_false_iff_ne, ne_eq]
      exact hmid m (List.mem_cons_self _ _)
    simp only [hm, Bool.false_eq_true, if_false]
    exact ih (fun x hx => hmid x (List.mem_cons_of_mem _ hx))

/-- FindPrevElementSibling skips a run of non-element siblings and stops
at the first element. -/
theorem prevElem_skip (mid : List Node) (A : Node) (rest : List Node)
    (hmid : ∀ m ∈ mid, m.type ≠ NodeType.element)
    (hA : A.type = NodeType.element) :
    FindPrevElementSibling (mid ++ A :: rest) = wrapNode A := by
  induction mid with
  | nil => simp [FindPrevElementSibling, hA]
  | cons m ms ih =>
    rw [List.cons_append, FindPrevElementSibling]
    have hm : (m.type == NodeType.element) = false := by
      simp only [beq_eq_false_iff_ne, ne_eq]
      exact hmid m (List.mem_cons_self _ _)
    simp only [hm, Bool.false_eq_true, if_false]
    exact ih (fun x hx => hmid x (List.mem_cons_of_mem _ hx))

/-- Without any element sibling ahead, FindNextElementSibling errors. -/
theorem nextElem_none (l : List Node)
    (h : ∀ m ∈ l, m.type ≠ NodeType.element) :
    FindNextElementSibling l = wrapErr "no next element sibling found" := by
  induction l with
  | nil => rfl
  | cons m ms ih =>
    rw [FindNextElementSibling]
    have hm : (m.type == NodeType.element) = false := by
      simp only [beq_eq_false_iff_ne, ne_eq]
      exact h m (List.mem_cons_self _ _)
    simp only [hm, Bool.false_eq_true, if_false]
    exact ih (fun x hx => h x (List.mem_cons_of_mem _ hx))

/-- Without any element sibling behind, FindPrevElementSibling errors. -/
theorem prevElem_none (l : List Node)
    (h : ∀ m ∈ l, m.type ≠ NodeType.element) :
    FindPrevElementSibling l = wrapErr "no previous element sibling found" := by
  induction l with
  | nil => rfl
  | cons m ms ih =>
    rw [FindPrevElementSibling]
    have hm : (m.type == NodeType.element) = false := by
      simp only [beq_eq_false_iff_ne, ne_eq]
      exact h m (List.mem_cons_self _ _)
    simp only [hm, Bool.false_eq_true, if_false]
    exact ih (fun x hx => h x (List.mem_cons_of_mem _ hx))

/-- Claim C1, corrected part (counterexample): with exactly two arguments
Find does not fail with an argument error — on one concrete tree it
returns a not-found error, and on another it panics at runtime. -/
theorem claim_C1_counterexample :
    Find divEmpty ["p", "class"] = .ok (wrapErr (notFoundMsg ["p", "class"])) ∧
    Find divPClassX ["p", "class"] = GoRes.panicked ∧
    notFoundMsg ["p", "class"] ≠ "not enough arguments" :=
  ⟨rfl, rfl, by decide⟩

/-- Claim C1 as amended: zero arguments to Find or FindStrict yield the
not-enough-arguments error; one and three arguments perform the search;
two arguments are not rejected with an argument error — the search runs,
yielding a not-found error when no attribute of a tag-matching element is
reached and a runtime panic when one is. -/
theorem claim_C1_amended :
    (∀ n : Node, Find n [] = .ok (wrapErr "not enough arguments")) ∧
    (∀ n : Node, FindStrict n [] = .ok (wrapErr "not enough arguments")) ∧
    (∀ (n t : Node) (tag key val : String),
      findOnce n [tag, key, val] false false = .ok (some t) →
      Find n [tag, key, val] = .ok (wrapNode t)) ∧
    (∀ (n : Node) (tag : String),
      findOnce n [tag] false false = .ok none →
      Find n [tag] = .ok (wrapErr (notFoundMsg [tag]))) ∧
    Find divEmpty ["p", "class"] = .ok (wrapErr (notFoundMsg ["p", "class"])) ∧
    Find divPClassX ["p", "class"] = GoRes.panicked := by
  refine ⟨fun n => rfl, fun n => rfl, ?_, ?_, rfl, rfl⟩
  · intro n t tag key val h
    simp [Find, h]
  · intro n tag h
    simp [Find, h]

/-- Claim C1 witness: the three-argument search conjunct applied to a
concrete tree. -/
theorem claim_C1_witness :
    Find divPClassX ["p", "class", "x"] = .ok (wrapNode pClassX) :=
  claim_C1_amended.2.2.1 divPClassX pClassX "p" "class" "x" rfl

/-- Claim C2: Find and FindStrict never match the node they are called
on — with uni initially unset the root is skipped and every hit lies
strictly below it — while recursive descent (uni set) does test each
subtree root; concretely, a root that itself satisfies the criteria is
not returned, and a matching child is. -/
theorem claim_C2 :
    (∀ (n : Node) (args : List String) (strict : Bool),
      findOnce n args false strict = findOnceList n.children args strict) ∧
    (∀ (n : Node) (args : List String) (strict : Bool) (t : Node),
      findOnce n args false strict = .ok (some t) → t ∈ subnodesList n.children) ∧
    (∀ (n : Node) (args : List String) (strict : Bool) (t : Node),
      findOnce n args true strict = .ok (some t) → t ∈ subnodes n) ∧
    Find elemA ["a"] = .ok (wrapErr (notFoundMsg ["a"])) ∧
    Find treeRA ["a"] = .ok (wrapNode elemA) := by
  have hfalse : ∀ (n : Node) (args : List String) (strict : Bool),
      findOnce n args false strict = findOnceList n.children args strict := by
    intro n args strict
    cases n with
    | mk ty d attrs cs =>
      rw [findOnce]
      simp [Node.children]
  refine ⟨hfalse, ?_, fun n args strict t h => findOnce_mem_pair.1 n args strict t h,
    rfl, rfl⟩
  intro n args strict t h
  rw [hfalse] at h
  exact findOnce_mem_pair.2 n.children args strict t h

/-- Claim C2 witness: the strict-descendant conjunct applied to a
concrete tree whose child matches. -/
theorem claim_C2_witness : elemA ∈ subnodesList (Node.children treeRA) :=
  claim_C2.2.1 treeRA ["a"] false elemA rfl

/-- Claim C3: the matching rule of FindAll and FindAllStrict compares the
node Data with the tag without checking the node type, so a text node
whose content equals the tag is returned; Find and FindStrict check the
type first and only ever return element nodes. -/
theorem claim_C3 :
    FindAll divTextP ["p"] = .ok [wrapNode textPNode] ∧
    FindAllStrict divTextP ["p"] = .ok [wrapNode textPNode] ∧
    textPNode.type = NodeType.text ∧
    Find divTextP ["p"] = .ok (wrapErr (notFoundMsg ["p"])) ∧
    FindStrict divTextP ["p"] = .ok (wrapErr (notFoundMsg ["p"])) ∧
    (∀ (n : Node) (args : List String) (uni strict : Bool) (t : Node),
      findOnce n args uni strict = .ok (some t) → t.type = NodeType.element) :=
  ⟨rfl, rfl, rfl, rfl, rfl,
    fun n args uni strict t h => findOnce_elem_pair.1 n args uni strict t h⟩

/-- Claim C3 witness: the element-only conjunct applied to a concrete
successful find. -/
theorem claim_C3_witness : Node.type elemA = NodeType.element :=
  claim_C3.2.2.2.2.2 treeRA ["a"] false false elemA rfl

/-- Claim C4: in loose mode an attribute satisfies the filter exactly
when its key equals the filter key and the filter value is one whole
whitespace-separated token of the attribute value; class a-b-c matches
token b, class ab does not. -/
theorem claim_C4 :
    (∀ (attr : Attribute) (key val : String),
      attributeContainsValue attr key val = true ↔
        (attr.key = key ∧ val ∈ fields attr.val)) ∧
    attributeContainsValue ⟨"class", "a b c"⟩ "class" "b" = true ∧
    attributeContainsValue ⟨"class", "ab"⟩ "class" "b" = false := by
  refine ⟨?_, by decide, by decide⟩
  intro attr key val
  rw [attributeContainsValue]
  constructor
  · intro h
    split at h
    · exact absurd h (by simp)
    case isFalse hk =>
      simp only [bne_iff_ne, ne_eq, not_not] at hk
      simp only [List.any_eq_true, beq_iff_eq] at h
      obtain ⟨f, hf, rfl⟩ := h
      exact ⟨hk, hf⟩
  · intro ⟨hk, hv⟩
    have : (attr.key != key) = false := by
      simp [bne_iff_ne, hk]
    simp only [this, Bool.false_eq_true, if_false, List.any_eq_true, beq_iff_eq]
    exact ⟨val, hv, rfl⟩

/-- Claim C4 witness: the iff applied to a concrete loose match. -/
theorem claim_C4_witness : ("class" : String) = "class" ∧ "b" ∈ fields "a b c" :=
  (claim_C4.1 ⟨"class", "a b c"⟩ "class" "b").mp (by decide)

/-- Claim C5: in strict mode an attribute satisfies the filter exactly
when its key equals the filter key and its full value equals the filter
value; class a-b does not match b but matches the full string a-b. -/
theorem claim_C5 :
    (∀ (attr : Attribute) (key val : String),
      attributeAndValueEquals attr key val = true ↔
        (attr.key = key ∧ attr.val = val)) ∧
    attributeAndValueEquals ⟨"class", "a b"⟩ "class" "b" = false ∧
    attributeAndValueEquals ⟨"class", "a b"⟩ "class" "a b" = true := by
  refine ⟨?_, by decide, by decide⟩
  intro attr key val
  simp [attributeAndValueEquals]

/-- Claim C5 witness: the iff applied to a concrete strict match. -/
theorem claim_C5_witness : ("class" : String) = "class" ∧ ("a b" : String) = "a b" :=
  (claim_C5.1 ⟨"class", "a b"⟩ "class" "a b").mp (by decide)

/-- Claim C6 counterexample: on a tree with no element labeled p but a
text node whose content is p, FindAll returns a non-empty sequence, so
the find-all half of the claim fails as universally stated. -/
theorem claim_C6_counterexample :
    (∀ m ∈ subnodes divTextP, ¬(m.type = NodeType.element ∧ m.data = "p")) ∧
    FindAll divTextP ["p"] = .ok [wrapNode textPNode] ∧
    FindAll divTextP ["p"] ≠ .ok [] := by
  refine ⟨by decide, rfl, ?_⟩
  intro h
  rw [show FindAll divTextP ["p"] = .ok [wrapNode textPNode] from rfl] at h
  simp at h

/-- Claim C6 as amended: on a tree with no element labeled with the tag,
Find and FindStrict fail with the not-found error carrying the tag and
filter; FindAll and FindAllStrict return the empty sequence, and never an
error, provided additionally no node of any type has the tag as its Data
(the find-all matching rule omits the element type check). -/
theorem claim_C6_amended :
    (∀ (n : Node) (tag : String),
      ((∀ m ∈ subnodes n, ¬(m.type = NodeType.element ∧ m.data = tag)) →
        Find n [tag] = .ok (wrapErr (notFoundMsg [tag])) ∧
        FindStrict n [tag] = .ok (wrapErr (notFoundMsg [tag]))) ∧
      ((∀ m ∈ subnodes n, m.data ≠ tag) →
        FindAll n [tag] = .ok [] ∧ FindAllStrict n [tag] = .ok [])) ∧
    notFoundMsg ["p"] = "element `p` with attributes `` not found" := by
  refine ⟨?_, by decide⟩
  intro n tag
  constructor
  · intro h
    have h1 := findOnce_notFound_pair.1 n tag false false h
    have h2 := findOnce_notFound_pair.1 n tag false true h
    constructor
    · simp [Find, h1]
    · simp [FindStrict, h2]
  · intro h
    have h1 := findAllAux_empty_pair.1 n tag false false h
    have h2 := findAllAux_empty_pair.1 n tag false true h
    constructor
    · simp [FindAll, findAllofem, h1]
    · simp [FindAllStrict, findAllofem, h2]

/-- Claim C6 witness: the amended claim applied to a concrete tree with
no node labeled p at all. -/
theorem claim_C6_witness :
    (Find divEmpty ["p"] = .ok (wrapErr (notFoundMsg ["p"])) ∧
      FindStrict divEmpty ["p"] = .ok (wrapErr (notFoundMsg ["p"]))) ∧
    (FindAll divEmpty ["p"] = .ok [] ∧ FindAllStrict divEmpty ["p"] = .ok []) :=
  ⟨(claim_C6_amended.1 divEmpty "p").1 (by decide),
    (claim_C6_amended.1 divEmpty "p").2 (by decide)⟩

/-- Claim C7: Text on a text node returns its own content; otherwise Text
concatenates, in order, the content of exactly the direct text-node
children; FullText concatenates the content of every text-node descendant
in pre-order; on the Hello-world example tree Text gives Hello-bang and
FullText gives the full sentence. -/
theorem claim_C7 :
    (∀ (d : String) (attrs : List Attribute) (cs : NodeList),
      Text (.mk NodeType.text d attrs cs) = d) ∧
    (∀ (ty : NodeType) (d : String) (attrs : List Attribute) (cs : NodeList),
      ty ≠ NodeType.text →
      Text (.mk ty d attrs cs) = concatStrings (shallowPieces cs)) ∧
    (∀ n : Node, FullText n = concatStrings (textPieces n)) ∧
    Text pHello = "Hello !" ∧
    FullText pHello = "Hello world!" := by
  refine ⟨?_, ?_, ?_, rfl, rfl⟩
  · intro d attrs cs
    rw [Text]
    simp [Node.type, Node.data]
  · intro ty d attrs cs hty
    rw [Text]
    have h : (Node.type (.mk ty d attrs cs) == NodeType.text) = false := by
      simp [Node.type, hty]
    simp [h, Node.children, textLoop_eq]
  · intro n
    rw [FullText]
    exact fullText_eq n

/-- Claim C7 witness: the non-text conjunct applied to a concrete element
node. -/
theorem claim_C7_witness :
    Text (.mk NodeType.element "x" [] NodeList.nil)
      = concatStrings (shallowPieces NodeList.nil) :=
  claim_C7.2.1 NodeType.element "x" [] NodeList.nil (by decide)

/-- Claim C8: the find-all attribute loop appends a matched node once per
satisfying attribute, so a node with a duplicated satisfying attribute
occurs twice in the FindAll result, while Find stops at the first
satisfying attribute and returns the node once. -/
theorem claim_C8 :
    (∀ (n : Node) (attrs : List Attribute) (tag key val : String) (strict : Bool),
      findAllAttr n attrs [tag, key, val] strict =
        .ok (List.replicate
          (attrs.countP (fun a => (strict && attributeAndValueEquals a key val) ||
            (!strict && attributeContainsValue a key val))) n)) ∧
    FindAll divADup ["a", "class", "x"] = .ok [wrapNode aDupClass, wrapNode aDupClass] ∧
    Find divADup ["a", "class", "x"] = .ok (wrapNode aDupClass) :=
  ⟨fun n attrs tag key val strict => findAllAttr_replicate n attrs tag key val strict,
    rfl, rfl⟩

/-- Claim C9: for adjacent element siblings A before B, separated only by
non-element siblings, FindNextElementSibling from A returns B and
FindPrevElementSibling from B returns A; with no element sibling in the
scanned direction the calls fail with the respective errors. -/
theorem claim_C9 :
    (∀ (A B : Node) (mid restA restB : List Node),
      A.type = NodeType.element → B.type = NodeType.element →
      (∀ m ∈ mid, m.type ≠ NodeType.element) →
      FindNextElementSibling (mid ++ B :: restB) = wrapNode B ∧
      FindPrevElementSibling (mid.reverse ++ A :: restA) = wrapNode A) ∧
    (∀ l : List Node, (∀ m ∈ l, m.type ≠ NodeType.element) →
      FindNextElementSibling l = wrapErr "no next element sibling found" ∧
      FindPrevElementSibling l = wrapErr "no previous element sibling found") := by
  constructor
  · intro A B mid restA restB hA hB hmid
    refine ⟨nextElem_skip mid B restB hmid hB, prevElem_skip mid.reverse A restA ?_ hA⟩
    intro m hm
    exact hmid m (List.mem_reverse.mp hm)
  · intro l hl
    exact ⟨nextElem_none l hl, prevElem_none l hl⟩

/-- Claim C9 witness: the round trip applied to concrete element siblings
separated by one text node. -/
theorem claim_C9_witness :
    FindNextElementSibling ([textPNode] ++ elemA :: []) = wrapNode elemA ∧
    FindPrevElementSibling (List.reverse [textPNode] ++ divEmpty :: [])
      = wrapNode divEmpty :=
  claim_C9.1 divEmpty elemA [textPNode] [] [] (by decide) (by decide) (by decide)

/-- Claim C10: Attrs yields the key-to-value map for element nodes, with
the last occurrence of a duplicated key winning and absent keys mapping
to nothing; non-element nodes get an absent map; and calling Attrs twice
yields equal results. -/
theorem claim_C10 :
    (∀ n : Node, n.type ≠ NodeType.element → Attrs n = none) ∧
    (∀ n : Node, n.type = NodeType.element → Attrs n = some (getKeyValue n.attr)) ∧
    (∀ (pre post : List Attribute) (k v : String),
      (∀ a ∈ post, a.key ≠ k) →
      getKeyValue (pre ++ ⟨k, v⟩ :: post) k = some v) ∧
    (∀ (attrs : List Attribute) (k : String),
      (∀ a ∈ attrs, a.key ≠ k) → getKeyValue attrs k = none) ∧
    (∀ n : Node, Attrs n = Attrs n) := by
  refine ⟨?_, ?_, getKeyValue_lastWins, getKeyValue_absent, fun n => rfl⟩
  · intro n h
    simp [Attrs, h]
  · intro n h
    simp [Attrs, h]

/-- Claim C10 witness: the conjuncts applied at concrete nodes and
attribute lists, a duplicated key included. -/
theorem claim_C10_witness :
    Attrs textPNode = none ∧
    getKeyValue [⟨"class", "a"⟩, ⟨"class", "b"⟩] "class" = some "b" ∧
    getKeyValue [⟨"id", "z"⟩] "class" = none :=
  ⟨claim_C10.1 textPNode (by decide),
    claim_C10.2.2.1 [⟨"class", "a"⟩] [] "class" "b" (by decide),
    claim_C10.2.2.2.1 [⟨"id", "z"⟩] "class" (by decide)⟩
